import Mathlib

/-!
Shallow embedding of the capability-visualization scripts
(`CapabilityClassVis.py`, `CapabilityVisualization.py`): the data model,
grouping, range layout, address resolution, arrow routing and empty-slot
computation, with theorems checking the documented properties.
-/

namespace CapVis

/-- A JSON-ish scalar value as stored in a record field
(`data.get(...)` can yield a string, a number, or `None`). -/
inductive JVal where
  | jstr : String → JVal
  | jint : Int → JVal
  | jnull : JVal
deriving DecidableEq, Repr

/-- Digits of a decimal numeral folded into a `Nat` (`'0'.toNat = 48`). -/
def digitsToNat (cs : List Char) : Nat :=
  cs.foldl (fun n c => n * 10 + (c.toNat - 48)) 0

/-- All characters are decimal digits. -/
def allDigits (cs : List Char) : Bool :=
  cs.all (fun c => c.isDigit)

/-- Model of Python `int(s)` on a string: an optional sign followed by a
nonempty run of decimal digits parses; anything else raises `ValueError`,
modelled as `none`. -/
def parseIntStr (s : String) : Option Int :=
  match s.toList with
  | [] => none
  | '-' :: cs =>
      if !cs.isEmpty && allDigits cs then some (-(digitsToNat cs : Int)) else none
  | '+' :: cs =>
      if !cs.isEmpty && allDigits cs then some ((digitsToNat cs : Int)) else none
  | cs =>
      if allDigits cs then some ((digitsToNat cs : Int)) else none

/-- Model of `Capability._to_int`: `int(value)`, with `ValueError` /
`TypeError` (non-numeric string, `None`) caught and turned into `None`. -/
def pyToInt : JVal → Option Int
  | JVal.jint n => some n
  | JVal.jstr s => parseIntStr s
  | JVal.jnull => none

/-- One capability record, as built by `Capability.__init__`: the display
fields are kept as strings, `Address` and `Reference` keep their raw field
value (`data.get` result), and `type` is the grouping key. -/
structure Cap where
  tag : String
  permissions : String
  executive : String
  global_flag : String
  object_type : String
  bounds : String
  addressRaw : JVal
  referenceRaw : JVal
  type : String
deriving DecidableEq, Repr

/-- `self.reference = self._to_int(data.get("Reference"))`. -/
def Cap.reference (c : Cap) : Option Int := pyToInt c.referenceRaw

/-- `Capability.getAddress`: `self._to_int(self.address)`. -/
def Cap.getAddress (c : Cap) : Option Int := pyToInt c.addressRaw

/-- Convenience constructor for test inputs: display fields blank. -/
def mkCap (t : String) (r : JVal) (a : JVal) : Cap :=
  ⟨"", "", "", "", "", "", a, r, t⟩

/-! ### Grouping and sorting -/

/-- The bucket of `type_caps` for key `t`: the records whose `Type` field is
`t`, in input order (dict-of-lists grouping preserves insertion order). -/
def typeGroup (caps : List Cap) (t : String) : List Cap :=
  caps.filter (fun c => c.type == t)

/-- Sort key of line 52: `c.reference if c.reference is not None else -1`. -/
def refKey (c : Cap) : Int := (Cap.reference c).getD (-1)

/-- The descending-by-reference order used by
`sorted(..., key=..., reverse=True)`. -/
def refDescOrder (a b : Cap) : Prop := refKey b ≤ refKey a

instance : DecidableRel refDescOrder := fun a b =>
  inferInstanceAs (Decidable (refKey b ≤ refKey a))

instance : IsTotal Cap refDescOrder :=
  ⟨fun a b => (le_total (refKey b) (refKey a)).imp id id⟩

instance : IsTrans Cap refDescOrder :=
  ⟨fun _ _ _ h1 h2 => le_trans h2 h1⟩

/-- A type's member list after the sort of line 52: a stable sort of the
bucket by `reference` descending (Python's `sorted` is stable; any stable
sort with the same comparator gives the same list). -/
def sortedGroup (caps : List Cap) (t : String) : List Cap :=
  List.insertionSort refDescOrder (typeGroup caps t)

/-- Lexicographic (code-point) strict comparison of character lists,
the order Python uses to compare strings. -/
def strLt : List Char → List Char → Bool
  | _, [] => false
  | [], _ :: _ => true
  | a :: as, b :: bs =>
      if a.toNat < b.toNat then true
      else if b.toNat < a.toNat then false
      else strLt as bs

/-- Non-strict lexicographic string order. -/
def strLe (a b : String) : Bool := !(strLt b.toList a.toList)

/-- The lexicographic order used by `sorted(type_caps.keys())`. -/
def keyOrder (a b : String) : Prop := strLe a b = true

instance : DecidableRel keyOrder := fun a b =>
  inferInstanceAs (Decidable (strLe a b = true))

/-- The distinct `Type` keys occurring in the input (the key set of
`type_caps`). -/
def typeKeys (caps : List Cap) : List String :=
  (caps.map Cap.type).dedup

/-- `types = sorted(type_caps.keys())`: the distinct type keys in
lexicographic order.  This list fixes panel iteration order everywhere
downstream. -/
def typesSorted (caps : List Cap) : List String :=
  List.insertionSort keyOrder (typeKeys caps)

/-! ### Range layout -/

/-- `refs = [cap.reference for cap in caps if cap.reference is not None]`. -/
def refsOf (l : List Cap) : List Int := l.filterMap Cap.reference

/-- `get_ref_range`: `(min(refs) if refs else 0, max(refs) if refs else 1)`. -/
def get_ref_range (l : List Cap) : Int × Int :=
  match refsOf l with
  | [] => (0, 1)
  | r :: rs => (rs.foldl min r, rs.foldl max r)

/-- `base=6` in `calc_height`. -/
def base_height : ℚ := 6

/-- `per_cap=0.6` in `calc_height`. -/
def per_cap_height : ℚ := mkRat 3 5

/-- `factor=1.5` in `calc_height`. -/
def range_factor : ℚ := mkRat 3 2

/-- `MAX_SUBPLOT_HEIGHT = 10`. -/
def MAX_SUBPLOT_HEIGHT : ℚ := 10

/-- `calc_height(min_ref, max_ref, count)`:
`max(base, (max_ref - min_ref) * factor, count * per_cap)`. -/
def calc_height (min_ref max_ref : Int) (count : Nat) : ℚ :=
  max base_height
    (max (((max_ref - min_ref : Int) : ℚ) * range_factor)
      ((count : ℚ) * per_cap_height))

/-- The height actually stored in `type_info` (line 85):
`min(calc_height(...), MAX_SUBPLOT_HEIGHT)`. -/
def panel_height (min_ref max_ref : Int) (count : Nat) : ℚ :=
  min (calc_height min_ref max_ref count) MAX_SUBPLOT_HEIGHT

/-- The grid-shape lookup of lines 92-104, as a function of the number of
distinct types. -/
def gridShape (n : Nat) : Nat × Nat :=
  if n = 1 then (1, 1)
  else if n = 2 then (1, 2)
  else if n = 3 then (1, 3)
  else if n = 4 then (2, 2)
  else if n = 5 ∨ n = 6 then (2, 3)
  else (1, n)

/-- Panel-to-grid-cell assignment: the i-th type of `typesSorted` lands on
the flattened axes array at row `i / ncols`, column `i % ncols`. -/
def panelAssign (caps : List Cap) : List (String × Nat × Nat) :=
  (typesSorted caps).enum.map
    (fun p => (p.2, p.1 / (gridShape (typesSorted caps).length).2,
      p.1 % (gridShape (typesSorted caps).length).2))

/-! ### Field geometry -/

/-- `FIXED_WIDTHS = [1, 16, 1, 1, 15, 31]`. -/
def FIXED_WIDTHS : List Int := [1, 16, 1, 1, 15, 31]

/-- `start` begins at `-1`: the leftmost colored field box starts there. -/
def leftmostFieldStart : Int := -1

/-- The value of `start` after the drawing loop: the right edge of the
rightmost drawn field box (also of the gray address band). -/
def rightmostFieldEnd : Int := leftmostFieldStart + FIXED_WIDTHS.foldl (· + ·) 0

/-- `x_min` of line 167 (also the lower x-limit set by `set_xlim`). -/
def x_min : Int := -1

/-- `x_max` of line 167 (also the upper x-limit `start + 1` from
`set_xlim`). -/
def x_max : Int := 65

/-! ### Drawing (panel contents) -/

/-- The rows actually drawn in panel `t` by lines 121-127: each group member
is drawn at `y = reference`, and members with `reference is None` are
skipped by the `continue`. -/
def renderedRows (caps : List Cap) (t : String) : List (Cap × Int) :=
  (sortedGroup caps t).filterMap
    (fun c => (Cap.reference c).map (fun r => (c, r)))

/-- `occupied = set(info["y_positions"].values())`: the set of reference
values present in the group. -/
def occupiedRows (caps : List Cap) (t : String) : Finset Int :=
  (refsOf (sortedGroup caps t)).toFinset

/-- `set(range(min, max + 1)) - occupied`: the empty-slot addresses. -/
def emptySlots (lo hi : Int) (occ : Finset Int) : Finset Int :=
  Finset.Icc lo hi \ occ

/-- The empty-slot set drawn for panel `t` (lines 128-131). -/
def emptySlotsOf (caps : List Cap) (t : String) : Finset Int :=
  emptySlots (get_ref_range (sortedGroup caps t)).1
    (get_ref_range (sortedGroup caps t)).2 (occupiedRows caps t)

/-! ### Address resolution and arrow routing -/

/-- The containment test of line 162:
`type_axes_info[t]["min"] <= addr_val <= type_axes_info[t]["max"]`, where
the bounds are the `get_ref_range` of the type's (sorted) group. -/
def containsAddrB (caps : List Cap) (t : String) (addr : Int) : Bool :=
  decide ((get_ref_range (sortedGroup caps t)).1 ≤ addr) &&
    decide (addr ≤ (get_ref_range (sortedGroup caps t)).2)

/-- Line 162: `next((t for t in types if ... <= addr_val <= ...), None)` —
the first type, in sorted key order, whose range contains the address. -/
def resolveAddr (caps : List Cap) (addr : Int) : Option String :=
  (typesSorted caps).find? (fun t => containsAddrB caps t addr)

/-- The anchor data of one routed arrow: source/target x-positions and the
`arc3` curvature (`rad`), with `rad = 0` for the plain `"arc3"` style. -/
structure Anchor where
  src_x : Int
  tgt_x : Int
  rad : ℚ
deriving DecidableEq, Repr

/-- The intra-panel branch (lines 169-173): `addr_val < cap.reference` uses
the left loop at `-2` with `rad=0.3`; otherwise the right loop at
`x_max + 1` with `rad=-0.3`. -/
def intraRoute (addr ref : Int) : Anchor :=
  if addr < ref then ⟨-2, -2, mkRat 3 10⟩
  else ⟨x_max + 1, x_max + 1, -(mkRat 3 10)⟩

/-- The cross-panel branch (lines 174-178): compare the two panels' center
x-coordinates; style `"arc3"` (zero curvature). -/
def crossRoute (src_center tgt_center : ℚ) : Anchor :=
  if src_center < tgt_center then ⟨x_max, x_min, 0⟩ else ⟨x_min, x_max, 0⟩

/-- One fully resolved arrow, before the random target-y jitter is added. -/
structure ArrowRes where
  srcType : String
  tgtType : String
  addr : Int
  srcY : Int
  anchor : Anchor
deriving DecidableEq, Repr

/-- The body of the arrow loop (lines 154-178) for one capability of panel
`typ`: skip when `reference` is `None`, when the address does not parse,
and when no type's range contains it (`if not target_type` also skips an
empty-string type key, Python falsiness); otherwise route intra- or
cross-panel.  `centerX` gives each panel's axis-center x-coordinate in
figure space (provided by the drawing library). -/
def arrowFor (caps : List Cap) (centerX : String → ℚ) (typ : String)
    (c : Cap) : Option ArrowRes :=
  match Cap.reference c with
  | none => none
  | some ref =>
    match Cap.getAddress c with
    | none => none
    | some addr =>
      match resolveAddr caps addr with
      | none => none
      | some tgt =>
        if tgt = "" then none
        else if typ = tgt then
          some ⟨typ, tgt, addr, ref, intraRoute addr ref⟩
        else
          some ⟨typ, tgt, addr, ref, crossRoute (centerX typ) (centerX tgt)⟩

/-- The iteration order of the arrow loop: panels in sorted key order, each
panel's members in sorted-group order. -/
def arrowCaps (caps : List Cap) : List (String × Cap) :=
  (typesSorted caps).flatMap (fun t => (sortedGroup caps t).map (fun c => (t, c)))

/-- All resolved arrows of one run, jitter not yet applied. -/
def arrowCores (caps : List Cap) (centerX : String → ℚ) : List ArrowRes :=
  (arrowCaps caps).filterMap (fun p => arrowFor caps centerX p.1 p.2)

/-- A drawn arrow: the resolved core plus the jittered target y-coordinate
`tgt_y = addr_val + random.uniform(0.1, 0.6)` (line 166). -/
structure ArrowDrawn where
  core : ArrowRes
  tgtY : ℚ
deriving DecidableEq, Repr

/-- The drawn arrows of one run, with the pseudo-random jitter stream `js`
supplying the `random.uniform(0.1, 0.6)` draw of each emitted arrow. -/
def drawnArrows (caps : List Cap) (centerX : String → ℚ) (js : Nat → ℚ) :
    List ArrowDrawn :=
  (arrowCores caps centerX).enum.map
    (fun p => ⟨p.2, (p.2.addr : ℚ) + js p.1⟩)

/-- The observable outputs of one pipeline run. -/
structure PipelineOut where
  assignments : List (String × Nat × Nat)
  empties : List (String × Finset Int)
  arrows : List ArrowDrawn

/-- One full run: panel assignments, per-panel empty-slot sets, and the
drawn arrows (the only place the random stream enters). -/
def runPipeline (caps : List Cap) (centerX : String → ℚ) (js : Nat → ℚ) :
    PipelineOut :=
  ⟨panelAssign caps,
    (typesSorted caps).map (fun t => (t, emptySlotsOf caps t)),
    drawnArrows caps centerX js⟩

/-- A capability whose `Address` field is set to `None`: used to state that
nothing but the outgoing arrow depends on the address field. -/
def eraseAddr (c : Cap) : Cap :=
  ⟨c.tag, c.permissions, c.executive, c.global_flag, c.object_type, c.bounds,
    JVal.jnull, c.referenceRaw, c.type⟩

/-- Shorthand for a null field value. -/
def jn : JVal := JVal.jnull

/-- Shorthand for an integer field value. -/
def ji (n : Int) : JVal := JVal.jint n

/-- Example input: type `A` with references `{0, 10}` (range `[0, 10]`) and
type `B` with references `{5, 15}` (range `[5, 15]`). -/
def exAB : List Cap :=
  [mkCap "A" (ji 0) jn, mkCap "A" (ji 10) jn,
    mkCap "B" (ji 5) jn, mkCap "B" (ji 15) jn]

/-- A capability of type `A` with reference `3` and address string `"5"`:
its address resolves into `A`'s own range, with `addr ≥ ref`. -/
def capIntra : Cap := mkCap "A" (ji 3) (JVal.jstr "5")

/-- Example input for the intra-panel branch: one type `A` with range
`[3, 10]`. -/
def exIntra : List Cap := [capIntra, mkCap "A" (ji 10) jn]

/-- A capability of type `B`, reference `5`, address `"0"`. -/
def capB10 : Cap := mkCap "B" (ji 5) (JVal.jstr "0")

/-- Example input: type `A` has a member but no parseable reference, so its
range defaults to `[0, 1]`; type `B` has range `[5, 5]`. -/
def exC10 : List Cap := [mkCap "A" jn jn, capB10]

/-- A capability of type `A` whose `Reference` field is absent. -/
def capNoRef : Cap := mkCap "A" jn jn

/-- Example input: one type `A` with an unreferenced member and a member at
reference `2`. -/
def exC7 : List Cap := [capNoRef, mkCap "A" (ji 2) jn]

/-- A capability with a reference but a non-numeric address string. -/
def capBad : Cap := mkCap "A" (ji 4) (JVal.jstr "xyz")

/-- Example input containing only `capBad`. -/
def exBad : List Cap := [capBad]

/-- A concrete center-x assignment for witnesses. -/
def cXW : String → ℚ := fun _ => 0

/-- A center-x assignment placing panel `A` left of every other panel. -/
def cXAB : String → ℚ := fun t => if t = "A" then 0 else 1

/-- A concrete jitter stream (constant `0.2`). -/
def jsW1 : Nat → ℚ := fun _ => mkRat 1 5

/-- A second concrete jitter stream (constant `0.5`). -/
def jsW2 : Nat → ℚ := fun _ => mkRat 1 2

/-- The one arrow drawn for `exIntra` under jitter stream `jsW1`. -/
def aW : ArrowDrawn :=
  ⟨⟨"A", "A", 5, 3, ⟨x_max + 1, x_max + 1, -(mkRat 3 10)⟩⟩, ((5 : Int) : ℚ) + jsW1 0⟩

/-! ## Helper lemmas -/

instance : IsTotal Cap refDescOrder :=
  ⟨fun a b => (le_total (refKey b) (refKey a)).imp id id⟩

instance : IsTrans Cap refDescOrder :=
  ⟨fun _ _ _ h1 h2 => le_trans h2 h1⟩

theorem strLt_nil_right (as : List Char) : strLt as [] = false := by
  cases as <;> rfl

theorem strLt_asymm : ∀ as bs : List Char,
    strLt as bs = true → strLt bs as = false := by
  intro as
  induction as with
  | nil =>
    intro bs _
    exact strLt_nil_right bs
  | cons a as ih =>
    intro bs h
    cases bs with
    | nil => simp [strLt_nil_right] at h
    | cons b bs =>
      simp only [strLt] at h ⊢
      by_cases hab : a.toNat < b.toNat
      · have hba : ¬ b.toNat < a.toNat := by omega
        simp [hab, hba]
      · by_cases hba : b.toNat < a.toNat
        · simp [hab, hba] at h
        · simp only [hab, hba, if_false] at h
          simp [hab, hba, ih bs h]

theorem strLt_not_lt_trans : ∀ as bs cs : List Char,
    strLt as bs = false → strLt bs cs = false → strLt as cs = false := by
  intro as
  induction as with
  | nil =>
    intro bs cs h1 h2
    cases bs with
    | nil =>
      cases cs with
      | nil => rfl
      | cons c cs => simp [strLt] at h2
    | cons b bs => simp [strLt] at h1
  | cons a as ih =>
    intro bs cs h1 h2
    cases cs with
    | nil => exact strLt_nil_right _
    | cons c cs =>
      cases bs with
      | nil => simp [strLt] at h2
      | cons b bs =>
        simp only [strLt] at h1 h2 ⊢
        by_cases hab : a.toNat < b.toNat
        · simp [hab] at h1
        · by_cases hbc : b.toNat < c.toNat
          · simp [hbc] at h2
          · have hac : ¬ a.toNat < c.toNat := by omega
            by_cases hca : c.toNat < a.toNat
            · simp [hac, hca]
            · have hba : ¬ b.toNat < a.toNat := by omega
              have hcb : ¬ c.toNat < b.toNat := by omega
              simp only [hab, hba, if_false] at h1
              simp only [hbc, hcb, if_false] at h2
              simp [hac, hca, ih bs cs h1 h2]

instance : IsTotal String keyOrder := by
  refine ⟨fun a b => ?_⟩
  unfold keyOrder strLe
  cases h : strLt b.toList a.toList with
  | false => exact Or.inl rfl
  | true => exact Or.inr (by rw [strLt_asymm _ _ h]; rfl)

instance : IsTrans String keyOrder := by
  refine ⟨fun a b c h1 h2 => ?_⟩
  unfold keyOrder strLe at h1 h2 ⊢
  simp only [Bool.not_eq_true'] at h1 h2 ⊢
  exact strLt_not_lt_trans _ _ _ h2 h1

theorem find?_first_iff {α : Type} (p : α → Bool) :
    ∀ (l : List α) (a : α), l.find? p = some a ↔
      ∃ l₁ l₂, l = l₁ ++ a :: l₂ ∧ p a = true ∧ ∀ x ∈ l₁, p x = false := by
  intro l
  induction l with
  | nil => intro a; simp [List.find?]
  | cons b l ih =>
    intro a
    cases hb : p b with
    | true =>
      rw [List.find?_cons_of_pos l hb]
      constructor
      · intro h
        cases h
        exact ⟨[], l, rfl, hb, by intro x hx; cases hx⟩
      · rintro ⟨l₁, l₂, heq, hpa, hfst⟩
        cases l₁ with
        | nil =>
          rw [List.nil_append] at heq
          cases heq
          rfl
        | cons c l₁ =>
          rw [List.cons_append] at heq
          have hcb : c = b := (List.cons.injEq _ _ _ _ ▸ heq).1.symm
          have := hfst c (List.mem_cons_self c l₁)
          rw [hcb, hb] at this
          cases this
    | false =>
      rw [List.find?_cons_of_neg l (by simp [hb]), ih]
      constructor
      · rintro ⟨l₁, l₂, heq, hpa, hfst⟩
        refine ⟨b :: l₁, l₂, by rw [heq, List.cons_append], hpa, ?_⟩
        intro x hx
        rcases List.mem_cons.mp hx with rfl | hx
        · exact hb
        · exact hfst x hx
      · rintro ⟨l₁, l₂, heq, hpa, hfst⟩
        cases l₁ with
        | nil =>
          rw [List.nil_append] at heq
          cases heq
          rw [hb] at hpa
          cases hpa
        | cons c l₁ =>
          rw [List.cons_append] at heq
          have htl : l = l₁ ++ a :: l₂ := (List.cons.injEq _ _ _ _ ▸ heq).2
          exact ⟨l₁, l₂, htl, hpa,
            fun x hx => hfst x (List.mem_cons_of_mem c hx)⟩

/-! ## Claim theorems -/

/-- C4: the panel grid shape is exactly the lookup-table function of the
number of distinct types: `1 ↦ 1×1`, `2 ↦ 1×2`, `3 ↦ 1×3`, `4 ↦ 2×2`,
`5, 6 ↦ 2×3`, and any other count `n` gives `1×n` (e.g. `7 ↦ 1×7`). -/
theorem gridShape_table :
    gridShape 1 = (1, 1) ∧ gridShape 2 = (1, 2) ∧ gridShape 3 = (1, 3) ∧
    gridShape 4 = (2, 2) ∧ gridShape 5 = (2, 3) ∧ gridShape 6 = (2, 3) ∧
    gridShape 7 = (1, 7) ∧
    ∀ n : Nat, n = 0 ∨ 7 ≤ n → gridShape n = (1, n) := by
  refine ⟨rfl, rfl, rfl, rfl, rfl, rfl, rfl, ?_⟩
  intro n hn
  have h1 : ¬ n = 1 := by omega
  have h2 : ¬ n = 2 := by omega
  have h3 : ¬ n = 3 := by omega
  have h4 : ¬ n = 4 := by omega
  have h56 : ¬ (n = 5 ∨ n = 6) := by omega
  simp [gridShape, h1, h2, h3, h4, h56]

/-- Witness for C4: a count of `9` distinct types yields a `1×9` grid. -/
theorem gridShape_table_witness : gridShape 9 = (1, 9) :=
  gridShape_table.2.2.2.2.2.2.2 9 (Or.inr (by omega))

/-- C5: the computed panel height is
`max(base_height, (max_ref − min_ref) * range_factor, count * per_member_height)`
with `base_height = 6`, `range_factor = 1.5`, `per_member_height = 0.6`,
capped from above at `MAX_SUBPLOT_HEIGHT = 10`; it is monotonically
non-decreasing in both the member count and the reference range, and never
below the base height. -/
theorem panel_height_spec :
    (∀ (m M : Int) (c : Nat),
      calc_height m M c =
        max 6 (max (((M - m : Int) : ℚ) * (3 / 2)) ((c : ℚ) * (3 / 5))) ∧
      panel_height m M c = min (calc_height m M c) 10) ∧
    (∀ (m M m' M' : Int) (c c' : Nat), M - m ≤ M' - m' → c ≤ c' →
      calc_height m M c ≤ calc_height m' M' c' ∧
      panel_height m M c ≤ panel_height m' M' c') ∧
    (∀ (m M : Int) (c : Nat),
      6 ≤ calc_height m M c ∧ 6 ≤ panel_height m M c) := by
  have hfac : range_factor = 3 / 2 := by
    norm_num [range_factor, Rat.mkRat_eq_div]
  have hpc : per_cap_height = 3 / 5 := by
    norm_num [per_cap_height, Rat.mkRat_eq_div]
  have hmono : ∀ (m M m' M' : Int) (c c' : Nat), M - m ≤ M' - m' → c ≤ c' →
      calc_height m M c ≤ calc_height m' M' c' := by
    intro m M m' M' c c' hr hc
    unfold calc_height
    refine max_le_max le_rfl (max_le_max ?_ ?_)
    · refine mul_le_mul_of_nonneg_right ?_ ?_
      · exact_mod_cast hr
      · rw [hfac]; norm_num
    · refine mul_le_mul_of_nonneg_right ?_ ?_
      · exact_mod_cast hc
      · rw [hpc]; norm_num
  have hbase : ∀ (m M : Int) (c : Nat), 6 ≤ calc_height m M c := by
    intro m M c
    unfold calc_height
    have : base_height = 6 := rfl
    rw [← this]
    exact le_max_left _ _
  refine ⟨?_, ?_, ?_⟩
  · intro m M c
    constructor
    · unfold calc_height
      rw [hfac, hpc]
      rfl
    · rfl
  · intro m M m' M' c c' hr hc
    refine ⟨hmono m M m' M' c c' hr hc, ?_⟩
    exact min_le_min (hmono m M m' M' c c' hr hc) le_rfl
  · intro m M c
    refine ⟨hbase m M c, ?_⟩
    exact le_min (hbase m M c) (by norm_num [MAX_SUBPLOT_HEIGHT])

/-- Witness for C5: a group with range `[0, 5]` and 2 members is no taller
than one with range `[0, 9]` and 3 members, and both are at least the base
height. -/
theorem panel_height_spec_witness :
    (calc_height 0 5 2 ≤ calc_height 0 9 3 ∧
      panel_height 0 5 2 ≤ panel_height 0 9 3) ∧
    (6 ≤ calc_height 0 9 3 ∧ 6 ≤ panel_height 0 9 3) :=
  ⟨panel_height_spec.2.1 0 5 0 9 2 3 (by decide) (by decide),
    panel_height_spec.2.2 0 9 3⟩

/-- C6: the empty-slot set of a panel is exactly the integers of
`[min_ref, max_ref]` minus the occupied reference rows; for a panel with
`min_ref = 0`, `max_ref = 9` and 3 occupied rows it has exactly 7 slots,
each at a distinct unoccupied integer address in `[0, 9]`. -/
theorem emptySlots_spec :
    (∀ (lo hi : Int) (occ : Finset Int) (a : Int),
      a ∈ emptySlots lo hi occ ↔ lo ≤ a ∧ a ≤ hi ∧ a ∉ occ) ∧
    (∀ (caps : List Cap) (t : String),
      emptySlotsOf caps t =
        emptySlots (get_ref_range (sortedGroup caps t)).1
          (get_ref_range (sortedGroup caps t)).2 (occupiedRows caps t)) ∧
    (∀ occ : Finset Int, occ ⊆ Finset.Icc 0 9 → occ.card = 3 →
      (emptySlots 0 9 occ).card = 7 ∧
      ∀ a ∈ emptySlots 0 9 occ, 0 ≤ a ∧ a ≤ 9 ∧ a ∉ occ) := by
  have hmem : ∀ (lo hi : Int) (occ : Finset Int) (a : Int),
      a ∈ emptySlots lo hi occ ↔ lo ≤ a ∧ a ≤ hi ∧ a ∉ occ := by
    intro lo hi occ a
    simp [emptySlots, Finset.mem_sdiff, Finset.mem_Icc, and_assoc]
  refine ⟨hmem, fun _ _ => rfl, ?_⟩
  intro occ hsub hcard
  constructor
  · rw [emptySlots, Finset.card_sdiff hsub, hcard]
    rfl
  · intro a ha
    exact (hmem 0 9 occ a).mp ha

/-- Witness for C6: occupied rows `{2, 5, 7}` in `[0, 9]` leave exactly 7
empty slots. -/
theorem emptySlots_spec_witness :
    (emptySlots 0 9 ({2, 5, 7} : Finset Int)).card = 7 ∧
    ∀ a ∈ emptySlots 0 9 ({2, 5, 7} : Finset Int),
      0 ≤ a ∧ a ≤ 9 ∧ a ∉ ({2, 5, 7} : Finset Int) :=
  emptySlots_spec.2.2 _ (by decide) (by decide)

/-- C1: the address resolver returns the first type, scanning the group
keys in lexicographic (sorted) order, whose inclusive range contains the
address; it returns no target when no type's range contains it; and for
types `A` (range `[0, 10]`) and `B` (range `[5, 15]`), address `7`
resolves to `A`. -/
theorem resolveAddr_spec :
    (∀ (caps : List Cap) (addr : Int) (t : String),
      resolveAddr caps addr = some t ↔
        ∃ pre post, typesSorted caps = pre ++ t :: post ∧
          containsAddrB caps t addr = true ∧
          ∀ u ∈ pre, containsAddrB caps u addr = false) ∧
    (∀ (caps : List Cap) (addr : Int),
      resolveAddr caps addr = none ↔
        ∀ t ∈ typesSorted caps, containsAddrB caps t addr = false) ∧
    (∀ caps : List Cap, (typesSorted caps).Sorted keyOrder) ∧
    resolveAddr exAB 7 = some "A" := by
  refine ⟨?_, ?_, ?_, by decide⟩
  · intro caps addr t
    exact find?_first_iff _ (typesSorted caps) t
  · intro caps addr
    rw [resolveAddr, List.find?_eq_none]
    constructor
    · intro h t ht
      have := h t ht
      simpa using this
    · intro h t ht
      simp [h t ht]
  · intro caps
    exact List.sorted_insertionSort keyOrder (typeKeys caps)

/-- Witness for C1: for the `A`/`B` example, the resolution of address `7`
to `A` is a first-match: `A` heads the sorted key list and contains `7`. -/
theorem resolveAddr_spec_witness :
    ∃ pre post, typesSorted exAB = pre ++ "A" :: post ∧
      containsAddrB exAB "A" 7 = true ∧
      ∀ u ∈ pre, containsAddrB exAB u 7 = false :=
  (resolveAddr_spec.1 exAB 7 "A").mp (by decide)

/-- C2 counterexample: for the intra-panel capability `capIntra`
(reference `3`, address `5`, so `address ≥ reference`), the produced
anchors sit at `x = 66`, while one unit right of the rightmost drawn field
(which ends at `x = 64`) is `65`: the claim's right-side anchor position is
off by one. -/
theorem intra_right_anchor_cex :
    (arrowFor exIntra cXW "A" capIntra).map
        (fun a => (a.anchor.src_x, a.anchor.tgt_x)) = some (66, 66) ∧
    rightmostFieldEnd + 1 = 65 ∧ (66 : Int) ≠ 65 := by decide

/-- C2 (amended): for a descriptor whose resolved target type equals its
own type, if `address < reference` both anchors are one unit left of the
panel's leftmost drawn field (`x = -2`) with a convex (positive-radius)
arc; otherwise (including `address = reference`) both anchors are one unit
right of the panel's upper x-limit, i.e. two units right of the rightmost
drawn field (`x = 66`), with a concave (negative-radius) arc. -/
theorem intra_arrow_spec :
    ∀ (caps : List Cap) (cX : String → ℚ) (typ : String) (c : Cap)
      (ref addr : Int),
    Cap.reference c = some ref → Cap.getAddress c = some addr →
    resolveAddr caps addr = some typ → typ ≠ "" →
    arrowFor caps cX typ c = some ⟨typ, typ, addr, ref, intraRoute addr ref⟩ ∧
    (addr < ref → intraRoute addr ref =
      ⟨leftmostFieldStart - 1, leftmostFieldStart - 1, mkRat 3 10⟩) ∧
    (ref ≤ addr → intraRoute addr ref =
      ⟨rightmostFieldEnd + 2, rightmostFieldEnd + 2, -(mkRat 3 10)⟩) ∧
    (0 < (intraRoute addr ref).rad ↔ addr < ref) ∧
    ((intraRoute addr ref).rad < 0 ↔ ref ≤ addr) := by
  intro caps cX typ c ref addr href haddr hres hne
  have hpos : (0 : ℚ) < mkRat 3 10 := by decide
  refine ⟨?_, ?_, ?_, ?_, ?_⟩
  · simp [arrowFor, href, haddr, hres, hne]
  · intro h
    rw [intraRoute, if_pos h]
    rfl
  · intro h
    rw [intraRoute, if_neg (not_lt.mpr h)]
    rfl
  · constructor
    · intro h
      by_contra hc
      rw [intraRoute, if_neg hc] at h
      exact absurd h (by decide)
    · intro h
      rw [intraRoute, if_pos h]
      exact hpos
  · constructor
    · intro h
      by_contra hc
      rw [intraRoute, if_pos (not_le.mp hc)] at h
      exact absurd h (by decide)
    · intro h
      rw [intraRoute, if_neg (not_lt.mpr h)]
      exact by decide

/-- Witness for C2: `capIntra` (reference `3`, address `5`) routes to its
own panel with both anchors at `66` and a negative-radius arc. -/
theorem intra_arrow_spec_witness :
    arrowFor exIntra cXW "A" capIntra =
      some ⟨"A", "A", 5, 3, intraRoute 5 3⟩ ∧
    intraRoute 5 3 =
      ⟨rightmostFieldEnd + 2, rightmostFieldEnd + 2, -(mkRat 3 10)⟩ ∧
    ((intraRoute 5 3).rad < 0 ↔ (3 : Int) ≤ 5) := by
  have h := intra_arrow_spec exIntra cXW "A" capIntra 3 5
    (by decide) (by decide) (by decide) (by decide)
  exact ⟨h.1, h.2.2.1 (by decide), h.2.2.2.2⟩

/-- C3: for a descriptor whose resolved target type differs from its own,
the anchors are chosen by comparing the two panels' center x-coordinates:
source-left-of-target puts the source anchor on the source panel's right
edge (`x_max`) and the target anchor on the destination's left edge
(`x_min`); otherwise the sides are swapped; the connector is direct
(zero curvature). -/
theorem cross_arrow_spec :
    ∀ (caps : List Cap) (cX : String → ℚ) (typ : String) (c : Cap)
      (ref addr : Int) (tgt : String),
    Cap.reference c = some ref → Cap.getAddress c = some addr →
    resolveAddr caps addr = some tgt → tgt ≠ "" → typ ≠ tgt →
    arrowFor caps cX typ c =
      some ⟨typ, tgt, addr, ref, crossRoute (cX typ) (cX tgt)⟩ ∧
    (cX typ < cX tgt → crossRoute (cX typ) (cX tgt) = ⟨x_max, x_min, 0⟩) ∧
    (¬ cX typ < cX tgt → crossRoute (cX typ) (cX tgt) = ⟨x_min, x_max, 0⟩) ∧
    (crossRoute (cX typ) (cX tgt)).rad = 0 := by
  intro caps cX typ c ref addr tgt href haddr hres hne hdf
  refine ⟨?_, ?_, ?_, ?_⟩
  · simp [arrowFor, href, haddr, hres, hne, hdf]
  · intro h
    rw [crossRoute, if_pos h]
  · intro h
    rw [crossRoute, if_neg h]
  · by_cases h : cX typ < cX tgt
    · rw [crossRoute, if_pos h]
    · rw [crossRoute, if_neg h]

/-- Witness for C3: a type-`A` capability with address `12` targets panel
`B`; with `A`'s center left of `B`'s, the source anchors at `x_max = 65`
and the target at `x_min = -1`, with zero curvature. -/
theorem cross_arrow_spec_witness :
    arrowFor exAB cXAB "A" (mkCap "A" (ji 0) (JVal.jstr "12")) =
      some ⟨"A", "B", 12, 0, crossRoute (cXAB "A") (cXAB "B")⟩ ∧
    crossRoute (cXAB "A") (cXAB "B") = ⟨x_max, x_min, 0⟩ := by
  have h := cross_arrow_spec exAB cXAB "A" (mkCap "A" (ji 0) (JVal.jstr "12"))
    0 12 "B" (by decide) (by decide) (by decide) (by decide) (by decide)
  exact ⟨h.1, h.2.1 (by decide)⟩

theorem reference_eraseAddr (c : Cap) :
    Cap.reference (eraseAddr c) = Cap.reference c := rfl

theorem typeGroup_eraseAddr (caps : List Cap) (t : String) :
    typeGroup (caps.map eraseAddr) t = (typeGroup caps t).map eraseAddr := by
  unfold typeGroup
  rw [List.filter_map]
  rfl

theorem refDescOrder_eraseAddr (a b : Cap) :
    refDescOrder (eraseAddr a) (eraseAddr b) ↔ refDescOrder a b := Iff.rfl

theorem orderedInsert_eraseAddr (a : Cap) (l : List Cap) :
    (List.orderedInsert refDescOrder a l).map eraseAddr =
      List.orderedInsert refDescOrder (eraseAddr a) (l.map eraseAddr) := by
  induction l with
  | nil => rfl
  | cons b l ih =>
    by_cases h : refDescOrder a b
    · simp [List.orderedInsert, refDescOrder_eraseAddr, h]
    · simp [List.orderedInsert, refDescOrder_eraseAddr, h, ih]

theorem insertionSort_eraseAddr (l : List Cap) :
    (List.insertionSort refDescOrder l).map eraseAddr =
      List.insertionSort refDescOrder (l.map eraseAddr) := by
  induction l with
  | nil => rfl
  | cons a l ih =>
    show (List.orderedInsert refDescOrder a
        (List.insertionSort refDescOrder l)).map eraseAddr =
      List.orderedInsert refDescOrder (eraseAddr a)
        (List.insertionSort refDescOrder (l.map eraseAddr))
    rw [orderedInsert_eraseAddr, ih]

theorem sortedGroup_eraseAddr (caps : List Cap) (t : String) :
    sortedGroup (caps.map eraseAddr) t = (sortedGroup caps t).map eraseAddr := by
  unfold sortedGroup
  rw [typeGroup_eraseAddr, ← insertionSort_eraseAddr]

theorem refsOf_eraseAddr (l : List Cap) : refsOf (l.map eraseAddr) = refsOf l := by
  unfold refsOf
  rw [List.filterMap_map]
  rfl

theorem typeKeys_eraseAddr (caps : List Cap) :
    typeKeys (caps.map eraseAddr) = typeKeys caps := by
  unfold typeKeys
  rw [List.map_map]
  rfl

theorem typesSorted_eraseAddr (caps : List Cap) :
    typesSorted (caps.map eraseAddr) = typesSorted caps := by
  unfold typesSorted
  rw [typeKeys_eraseAddr]

theorem renderedRows_eraseAddr (caps : List Cap) (t : String) :
    renderedRows (caps.map eraseAddr) t =
      (renderedRows caps t).map (fun p => (eraseAddr p.1, p.2)) := by
  unfold renderedRows
  rw [sortedGroup_eraseAddr, List.filterMap_map, List.map_filterMap]
  congr 1
  funext c
  cases href : Cap.reference c with
  | none =>
    have : Cap.reference (eraseAddr c) = none := href
    simp [Function.comp, this, href]
  | some r =>
    have : Cap.reference (eraseAddr c) = some r := href
    simp [Function.comp, this, href]

/-- C7 counterexample: `capNoRef` (absent reference) is a member of its
type group after sorting, but the draw loop's `continue` keeps it out of
the rendered rows: it is dropped from the rendered output, not shown at
the bottom of the panel. -/
theorem noneRef_dropped_cex :
    capNoRef ∈ sortedGroup exC7 "A" ∧
    Cap.reference capNoRef = none ∧
    capNoRef ∉ (renderedRows exC7 "A").map Prod.fst := by decide

/-- C7 (amended): grouping produces, for each type, exactly its
descriptors, stably sorted by reference descending with an absent
reference keyed as `-1` (so such a descriptor stays in the group's
sequence, at the position of key `-1`); however the draw loop skips
descriptors with absent reference, so they are dropped from the rendered
output, while every descriptor with a present reference is rendered. -/
theorem grouping_sort_spec :
    ∀ (caps : List Cap) (t : String),
    List.Sorted refDescOrder (sortedGroup caps t) ∧
    (sortedGroup caps t).Perm (typeGroup caps t) ∧
    (∀ c : Cap, c ∈ typeGroup caps t ↔ c ∈ caps ∧ c.type = t) ∧
    (∀ c ∈ sortedGroup caps t, Cap.reference c = none →
      c ∉ (renderedRows caps t).map Prod.fst) ∧
    (∀ c ∈ sortedGroup caps t, ∀ r : Int, Cap.reference c = some r →
      c ∈ (renderedRows caps t).map Prod.fst) := by
  intro caps t
  refine ⟨List.sorted_insertionSort refDescOrder _,
    List.perm_insertionSort refDescOrder _, ?_, ?_, ?_⟩
  · intro c
    simp [typeGroup, List.mem_filter]
  · intro c _ hnone hmem
    rcases List.mem_map.mp hmem with ⟨p, hp, hpc⟩
    rcases List.mem_filterMap.mp hp with ⟨c', _, hopt⟩
    cases hr : Cap.reference c' with
    | none => rw [hr] at hopt; cases hopt
    | some r =>
      rw [hr] at hopt
      cases hopt
      rw [← hpc] at hnone
      rw [hnone] at hr
      cases hr
  · intro c hc r hr
    refine List.mem_map.mpr ⟨(c, r), ?_, rfl⟩
    exact List.mem_filterMap.mpr ⟨c, hc, by rw [hr]; rfl⟩

/-- Witness for C7: in `exC7`, the referenced member is rendered while the
group still contains the unreferenced one. -/
theorem grouping_sort_spec_witness :
    mkCap "A" (ji 2) jn ∈ (renderedRows exC7 "A").map Prod.fst ∧
    capNoRef ∈ typeGroup exC7 "A" :=
  ⟨(grouping_sort_spec exC7 "A").2.2.2.2 (mkCap "A" (ji 2) jn) (by decide) 2
      (by decide),
    ((grouping_sort_spec exC7 "A").2.2.1 capNoRef).mpr ⟨by decide, rfl⟩⟩

/-- C8: a record whose Address does not parse as an integer loses only its
outgoing arrow (`arrowFor` yields `none` for it), while the record itself
is still rendered when it has a reference and nothing else in the pipeline
reads the address field: erasing every address leaves the sorted type
keys, the panel assignment, the sorted groups, the rendered rows and the
empty-slot sets unchanged.  The embedded compute phase is total, so no
failure escalates; only the missing-input-file check (outside the compute
phase) ends the run early. -/
theorem badAddress_local :
    (∀ (caps : List Cap) (cX : String → ℚ) (typ : String) (c : Cap),
      Cap.getAddress c = none → arrowFor caps cX typ c = none) ∧
    (∀ (caps : List Cap) (t : String) (c : Cap) (r : Int),
      c ∈ typeGroup caps t → Cap.reference c = some r →
      c ∈ (renderedRows caps t).map Prod.fst) ∧
    (∀ caps : List Cap, typesSorted (caps.map eraseAddr) = typesSorted caps) ∧
    (∀ caps : List Cap, panelAssign (caps.map eraseAddr) = panelAssign caps) ∧
    (∀ (caps : List Cap) (t : String),
      sortedGroup (caps.map eraseAddr) t = (sortedGroup caps t).map eraseAddr) ∧
    (∀ (caps : List Cap) (t : String),
      renderedRows (caps.map eraseAddr) t =
        (renderedRows caps t).map (fun p => (eraseAddr p.1, p.2))) ∧
    (∀ (caps : List Cap) (t : String),
      emptySlotsOf (caps.map eraseAddr) t = emptySlotsOf caps t) := by
  refine ⟨?_, ?_, typesSorted_eraseAddr, ?_, sortedGroup_eraseAddr,
    renderedRows_eraseAddr, ?_⟩
  · intro caps cX typ c h
    unfold arrowFor
    rw [h]
    cases Cap.reference c <;> rfl
  · intro caps t c r hc hr
    refine List.mem_map.mpr ⟨(c, r), ?_, rfl⟩
    refine List.mem_filterMap.mpr ⟨c, ?_, by rw [hr]; rfl⟩
    exact ((List.perm_insertionSort refDescOrder _).mem_iff).mpr hc
  · intro caps
    unfold panelAssign
    rw [typesSorted_eraseAddr]
  · intro caps t
    unfold emptySlotsOf occupiedRows
    rw [sortedGroup_eraseAddr]
    unfold get_ref_range
    rw [refsOf_eraseAddr]

/-- Witness for C8: a record with address `"xyz"` gets no arrow but is
still rendered at its reference row. -/
theorem badAddress_local_witness :
    arrowFor exBad cXW "A" capBad = none ∧
    capBad ∈ (renderedRows exBad "A").map Prod.fst :=
  ⟨badAddress_local.1 exBad cXW "A" capBad (by decide),
    badAddress_local.2.1 exBad "A" capBad 4 (by decide) (by decide)⟩

/-- C9: re-running the pipeline on the same input yields identical panel
assignments, identical empty-slot sets and identical arrow resolutions
(source type, target type, anchors, curvature) for any two jitter streams;
only the target y-anchor, which adds a jitter drawn from `[0.1, 0.6)`,
depends on the stream. -/
theorem pipeline_determinism :
    ∀ (caps : List Cap) (cX : String → ℚ) (js1 js2 : Nat → ℚ),
    (runPipeline caps cX js1).assignments = (runPipeline caps cX js2).assignments ∧
    (runPipeline caps cX js1).empties = (runPipeline caps cX js2).empties ∧
    ((runPipeline caps cX js1).arrows).map ArrowDrawn.core =
      ((runPipeline caps cX js2).arrows).map ArrowDrawn.core ∧
    ((∀ i, mkRat 1 10 ≤ js1 i ∧ js1 i < mkRat 3 5) →
      ∀ a ∈ (runPipeline caps cX js1).arrows,
        (a.core.addr : ℚ) + mkRat 1 10 ≤ a.tgtY ∧
          a.tgtY < (a.core.addr : ℚ) + mkRat 3 5) := by
  intro caps cX js1 js2
  refine ⟨rfl, rfl, ?_, ?_⟩
  · show (drawnArrows caps cX js1).map ArrowDrawn.core =
      (drawnArrows caps cX js2).map ArrowDrawn.core
    unfold drawnArrows
    rw [List.map_map, List.map_map]
    rfl
  · intro hj a ha
    rcases List.mem_map.mp ha with ⟨p, _, rfl⟩
    exact ⟨add_le_add_left (hj p.1).1 _, add_lt_add_left (hj p.1).2 _⟩

/-- Witness for C9: two distinct constant jitter streams over `exIntra`
give identical arrow cores, and the drawn arrow's target y lies in the
jittered band above its address. -/
theorem pipeline_determinism_witness :
    ((runPipeline exIntra cXW jsW1).arrows).map ArrowDrawn.core =
      ((runPipeline exIntra cXW jsW2).arrows).map ArrowDrawn.core ∧
    ((aW.core.addr : ℚ) + mkRat 1 10 ≤ aW.tgtY ∧
      aW.tgtY < (aW.core.addr : ℚ) + mkRat 3 5) := by
  have h := pipeline_determinism exIntra cXW jsW1 jsW2
  refine ⟨h.2.2.1, ?_⟩
  have hmem : aW ∈ (runPipeline exIntra cXW jsW1).arrows := by
    have harr : (runPipeline exIntra cXW jsW1).arrows = [aW] := rfl
    rw [harr]
    exact List.mem_singleton_self aW
  exact h.2.2.2
    (fun i => ⟨show mkRat 1 10 ≤ mkRat 1 5 by decide,
      show mkRat 1 5 < mkRat 3 5 by decide⟩) aW hmem

/-- C10: a type group with no parseable reference (including the empty
group) gets the default range `[0, 1]`, so its panel's range contains the
addresses `0` and `1`; in `exC10`, address `0` resolves to the
lexicographically first such type `A`, whose panel draws no descriptor
rows, and the type-`B` capability's arrow targets that empty panel. -/
theorem refRange_default_spec :
    (get_ref_range ([] : List Cap) = (0, 1)) ∧
    (∀ l : List Cap, (∀ c ∈ l, Cap.reference c = none) →
      get_ref_range l = (0, 1)) ∧
    (∀ (caps : List Cap) (t : String) (addr : Int),
      (∀ c ∈ typeGroup caps t, Cap.reference c = none) →
      (addr = 0 ∨ addr = 1) → containsAddrB caps t addr = true) ∧
    (resolveAddr exC10 0 = some "A" ∧ renderedRows exC10 "A" = [] ∧
      arrowFor exC10 cXAB "B" capB10 =
        some ⟨"B", "A", 0, 5, crossRoute (cXAB "B") (cXAB "A")⟩) := by
  have hnone : ∀ l : List Cap, (∀ c ∈ l, Cap.reference c = none) →
      get_ref_range l = (0, 1) := by
    intro l h
    have hr : refsOf l = [] := List.filterMap_eq_nil_iff.mpr h
    unfold get_ref_range
    rw [hr]
  refine ⟨rfl, hnone, ?_, by decide, by decide, by decide⟩
  intro caps t addr h haddr
  have hr : get_ref_range (sortedGroup caps t) = (0, 1) := by
    refine hnone _ ?_
    intro c hc
    exact h c ((List.perm_insertionSort refDescOrder _).subset hc)
  unfold containsAddrB
  rw [hr]
  rcases haddr with rfl | rfl <;> rfl

/-- Witness for C10: the all-unreferenced group `A` of `exC10` contains
address `1` in its default range. -/
theorem refRange_default_spec_witness : containsAddrB exC10 "A" 1 = true :=
  refRange_default_spec.2.2.1 exC10 "A" 1 (by decide) (Or.inr rfl)

end CapVis
